import Mathlib

/-!
# Verification of `abstract_django_testcase.py`

A shallow embedding of the snapshot-assertion mixin `AbstractTestCase`
(`src/abstract_django_testcase.py`) and proofs about it.

Modelling conventions:
* Python strings are Lean `String`s; the Python string primitives used by the
  source (`str.find`, `str.replace`, `os.path.basename`, `os.path.dirname`,
  `str.split`) are re-implemented over character lists below, following the
  CPython semantics.
* Python values fed to `assert_equals_resultset` are a closed inductive type
  `PyVal` covering the leaf kinds the source inspects (`Decimal`,
  `datetime.datetime`, `datetime.date`, `bytes`, `dict`, `list`, `tuple`) plus
  the JSON-native leaves the source leaves unchanged.
* Python floats are modelled as exact rationals; `float(d)` applied to a
  `Decimal` is the identity on the carried rational value.
* `bytes.decode("utf-8")` is a genuine UTF-8 decoder returning `Option`;
  `none` models a raised `UnicodeDecodeError`.
* The filesystem is a pure state (`FS`) of file contents and created
  directories; call-stack introspection is replaced by explicit parameters
  (the caller filename and the test method name), which is what the
  introspection computes.
-/

namespace ADT

/-! ## Python string primitives -/

/-- Index of the first occurrence of `pat` in `s` (`none` when absent),
following CPython `str.find` matching from the left. -/
def findSub (pat : List Char) : List Char → Option Nat
  | [] => if pat.isPrefixOf ([] : List Char) then some 0 else none
  | c :: t =>
    if pat.isPrefixOf (c :: t) then some 0
    else (findSub pat t).map (· + 1)

/-- Python `s.find(pat)`: lowest index of `pat` in `s`, or `-1`. -/
def pyFind (s pat : String) : Int :=
  match findSub pat.data s.data with
  | some n => (n : Int)
  | none => -1

/-- Strip `pat` from the front of a character list, if it is a prefix. -/
def stripPrefixChars : List Char → List Char → Option (List Char)
  | [], s => some s
  | _ :: _, [] => none
  | p :: ps, c :: t => if p = c then stripPrefixChars ps t else none

/-- Replace every non-overlapping occurrence of the non-empty pattern `pat`
by `rep`, scanning left to right (CPython `str.replace`).  The fuel is the
length of the scanned list, which a non-empty pattern can never outrun. -/
def replaceFuel (pat rep : List Char) : Nat → List Char → List Char
  | _, [] => []
  | 0, s => s
  | fuel + 1, c :: t =>
    match stripPrefixChars pat (c :: t) with
    | some rest => rep ++ replaceFuel pat rep fuel rest
    | none => c :: replaceFuel pat rep fuel t

/-- CPython `s.replace("", rep)`: `rep` is inserted before every character
and once at the end. -/
def replaceEmptyPat (rep : List Char) : List Char → List Char
  | [] => rep
  | c :: t => rep ++ c :: replaceEmptyPat rep t

/-- Python `s.replace(pat, rep)` (all occurrences). -/
def pyReplace (s pat rep : String) : String :=
  match pat.data with
  | [] => String.mk (replaceEmptyPat rep.data s.data)
  | _ :: _ => String.mk (replaceFuel pat.data rep.data s.data.length s.data)

/-- Python slice `s[:n]`. -/
def strTake (s : String) (n : Nat) : String := String.mk (s.data.take n)

/-- Split a character list at every `/` (CPython `str.split("/")`). -/
def splitSlash : List Char → List (List Char)
  | [] => [[]]
  | c :: t =>
    let r := splitSlash t
    if c = '/' then [] :: r
    else
      match r with
      | [] => [[c]]
      | h :: t2 => (c :: h) :: t2

/-- Python `s.split("/")` as a list of strings. -/
def splitSlashStr (s : String) : List String := (splitSlash s.data).map String.mk

/-- `os.path.basename`: everything after the last `/`. -/
def basename (s : String) : String := String.mk ((splitSlash s.data).getLastD [])

/-- Index of the last `/` in a character list, if any. -/
def lastSlashIdx : List Char → Option Nat
  | [] => none
  | c :: t =>
    match lastSlashIdx t with
    | some i => some (i + 1)
    | none => if c = '/' then some 0 else none

/-- Strip trailing `/` characters. -/
def dropTrailingSlashes (s : List Char) : List Char := (s.reverse.dropWhile (· = '/')).reverse

/-- `os.path.dirname` (POSIX): the text up to the last `/`, with trailing
slashes stripped unless the head is all slashes. -/
def dirname (s : String) : String :=
  match lastSlashIdx s.data with
  | none => ""
  | some i =>
    let head := s.data.take (i + 1)
    if head.all (· = '/') then String.mk head else String.mk (dropTrailingSlashes head)

/-! ## Decimal digit rendering and zero padding -/

/-- Decimal digits, most significant first; the fuel bounds the number of
divisions by 10 and `fuel = n` always suffices. -/
def natDigitsAux : Nat → Nat → List Char
  | 0, n => [Char.ofNat (48 + n % 10)]
  | fuel + 1, n =>
    if n < 10 then [Char.ofNat (48 + n)]
    else natDigitsAux fuel (n / 10) ++ [Char.ofNat (48 + n % 10)]

/-- Decimal digits of a natural number, most significant first. -/
def natDigits (n : Nat) : List Char := natDigitsAux n n

/-- Python `str` of a natural number. -/
def natStr (n : Nat) : String := String.mk (natDigits n)

/-- Python `str` of an `int`. -/
def intStr (i : Int) : String :=
  if i < 0 then "-" ++ natStr i.natAbs else natStr i.toNat

/-- Zero-pad the decimal rendering of `n` to width `w` (as `strftime` does). -/
def padZero (w n : Nat) : String :=
  String.mk (List.replicate (w - (natDigits n).length) '0' ++ natDigits n)

/-! ## Python values -/

/-- The fields of a `datetime.datetime`. -/
structure PyDatetime where
  year : Nat
  month : Nat
  day : Nat
  hour : Nat
  minute : Nat
  second : Nat
  microsecond : Nat
deriving DecidableEq

/-- The fields of a `datetime.date`. -/
structure PyDate where
  year : Nat
  month : Nat
  day : Nat
deriving DecidableEq



/-- A Python value as inspected by `_to_json_dumpable`: the leaf kinds the
source converts, the containers it recurses into, and the JSON-native leaves
it returns unchanged.  Floats are modelled as exact rationals; byte strings
as lists of byte values; dict keys are strings (insertion-ordered list). -/
inductive PyVal where
  | pyNone : PyVal
  | pyBool : Bool → PyVal
  | pyInt : Int → PyVal
  | pyFloat : Rat → PyVal
  | pyStr : String → PyVal
  | pyDecimal : Rat → PyVal
  | pyDatetime : PyDatetime → PyVal
  | pyDate : PyDate → PyVal
  | pyBytes : List Nat → PyVal
  | pyList : List PyVal → PyVal
  | pyTuple : List PyVal → PyVal
  | pyDict : List (String × PyVal) → PyVal

/-- `datetime.strftime("%Y-%m-%d %H:%M:%S.%f")`: all fields zero-padded,
the year to 4 digits, the microseconds to 6. -/
def formatDatetime (dt : PyDatetime) : String :=
  padZero 4 dt.year ++ "-" ++ padZero 2 dt.month ++ "-" ++ padZero 2 dt.day ++ " " ++
    padZero 2 dt.hour ++ ":" ++ padZero 2 dt.minute ++ ":" ++ padZero 2 dt.second ++ "." ++
    padZero 6 dt.microsecond

/-- `date.strftime("%Y-%m-%d")`. -/
def formatDate (d : PyDate) : String :=
  padZero 4 d.year ++ "-" ++ padZero 2 d.month ++ "-" ++ padZero 2 d.day

/-! ## UTF-8 decoding (`bytes.decode("utf-8")`, strict) -/

/-- Is `b` a UTF-8 continuation byte? -/
def utf8Cont (b : Nat) : Bool := 0x80 ≤ b && b < 0xC0

/-- Strict UTF-8 decoding of a byte list into characters: rejects stray
continuation bytes, overlong encodings, surrogates, code points above
`0x10FFFF` and truncated sequences, as CPython's strict codec does. -/
def utf8DecodeList : List Nat → Option (List Char)
  | [] => some []
  | b :: bs =>
    if b < 0x80 then (utf8DecodeList bs).map (fun cs => Char.ofNat b :: cs)
    else if b < 0xC2 then none
    else if b < 0xE0 then
      match bs with
      | b1 :: bs1 =>
        if utf8Cont b1 then
          (utf8DecodeList bs1).map (fun cs => Char.ofNat ((b - 0xC0) * 0x40 + (b1 - 0x80)) :: cs)
        else none
      | [] => none
    else if b < 0xF0 then
      match bs with
      | b1 :: b2 :: bs2 =>
        if utf8Cont b1 && utf8Cont b2 then
          let c := (b - 0xE0) * 0x1000 + (b1 - 0x80) * 0x40 + (b2 - 0x80)
          if c < 0x800 then none
          else if 0xD800 ≤ c && c < 0xE000 then none
          else (utf8DecodeList bs2).map (fun cs => Char.ofNat c :: cs)
        else none
      | _ => none
    else if b < 0xF5 then
      match bs with
      | b1 :: b2 :: b3 :: bs3 =>
        if utf8Cont b1 && utf8Cont b2 && utf8Cont b3 then
          let c := (b - 0xF0) * 0x40000 + (b1 - 0x80) * 0x1000 + (b2 - 0x80) * 0x40 + (b3 - 0x80)
          if c < 0x10000 then none
          else if 0x10FFFF < c then none
          else (utf8DecodeList bs3).map (fun cs => Char.ofNat c :: cs)
        else none
      | _ => none
    else none

/-- `bytes.decode("utf-8")`: `none` models a raised `UnicodeDecodeError`. -/
def utf8Decode? (bs : List Nat) : Option String := (utf8DecodeList bs).map String.mk

/-! ## `_to_json_dumpable` -/

/-- Modelling choice: Python floats are exact rationals here, so `float(d)`
on a `Decimal` is the identity on the carried rational value. -/
def floatOfDecimal (q : Rat) : Rat := q

mutual

/-- Embeds `AbstractTestCase._to_json_dumpable` (the value-level view; the
in-place mutation of dicts and lists is modelled separately by the heap
model below).  `none` models a raised `UnicodeDecodeError` on a byte string
that is not valid UTF-8.  A tuple is first copied into a list (`list(data)`)
and that list is normalized. -/
def toJsonDumpable : PyVal → Option PyVal
  | .pyDecimal q => some (.pyFloat (floatOfDecimal q))
  | .pyDatetime dt => some (.pyStr (formatDatetime dt))
  | .pyDate d => some (.pyStr (formatDate d))
  | .pyBytes bs => (utf8Decode? bs).map .pyStr
  | .pyDict es => (toJsonDumpableEntries es).map .pyDict
  | .pyList xs => (toJsonDumpableList xs).map .pyList
  | .pyTuple xs => (toJsonDumpableList xs).map .pyList
  | .pyNone => some .pyNone
  | .pyBool b => some (.pyBool b)
  | .pyInt n => some (.pyInt n)
  | .pyFloat q => some (.pyFloat q)
  | .pyStr s => some (.pyStr s)

/-- Normalize the elements of a list in order (the `for idx, i in enumerate`
loop body). -/
def toJsonDumpableList : List PyVal → Option (List PyVal)
  | [] => some []
  | x :: t => do
    let x' ← toJsonDumpable x
    let t' ← toJsonDumpableList t
    pure (x' :: t')

/-- Normalize the values of a dict in order, keys unchanged (the
`for k, v in data.items()` loop body). -/
def toJsonDumpableEntries : List (String × PyVal) → Option (List (String × PyVal))
  | [] => some []
  | (k, v) :: t => do
    let v' ← toJsonDumpable v
    let t' ← toJsonDumpableEntries t
    pure ((k, v') :: t')

end

/-! ## `json.dumps(..., indent=4, separators=(",", ": "), default=str,
ensure_ascii=False)` -/

/-- One hexadecimal digit (lowercase). -/
def hexDigit (n : Nat) : Char :=
  if n < 10 then Char.ofNat (48 + n) else Char.ofNat (87 + n)

/-- Four lowercase hexadecimal digits, as in the `\uXXXX` escapes. -/
def hex4 (n : Nat) : String :=
  String.mk [hexDigit (n / 4096 % 16), hexDigit (n / 256 % 16), hexDigit (n / 16 % 16),
    hexDigit (n % 16)]

/-- One character of a JSON string under `ensure_ascii=False`: only the
backslash, the double quote and the control characters below `0x20` are
escaped; every other character — non-ASCII included — passes through
literally. -/
def escChar (c : Char) : String :=
  if c = Char.ofNat 34 then "\\\""
  else if c = '\\' then "\\\\"
  else if c = '\n' then "\\n"
  else if c = '\t' then "\\t"
  else if c = '\r' then "\\r"
  else if c.toNat = 8 then "\\b"
  else if c.toNat = 12 then "\\f"
  else if c.toNat < 0x20 then "\\u" ++ hex4 c.toNat
  else String.singleton c

/-- A JSON string literal. -/
def quoteStr (s : String) : String := "\"" ++ String.join (s.data.map escChar) ++ "\""

/-- The indentation prefix at nesting depth `d` (`indent=4`). -/
def indentStr (d : Nat) : String := String.mk (List.replicate (4 * d) ' ')

/-- Fractional decimal digits of `num / den` (with `num < den`), stopping at
an exact remainder; the fuel caps the expansion (genuine binary floats
always terminate well within it). -/
def fracDigitsAux : Nat → Nat → Nat → List Char
  | 0, _, _ => []
  | _, 0, _ => []
  | fuel + 1, num, den =>
    Char.ofNat (48 + num * 10 / den % 10) :: fracDigitsAux fuel (num * 10 % den) den

/-- Python `repr` of a float, on the rationals modelling floats: an integral
value prints with a trailing `.0`, a non-integral one prints its terminating
decimal expansion (every binary float has one). -/
def floatRepr (q : Rat) : String :=
  let sign := if q < 0 then "-" else ""
  let n := q.num.natAbs
  if n % q.den = 0 then sign ++ natStr (n / q.den) ++ ".0"
  else sign ++ natStr (n / q.den) ++ "." ++ String.mk (fracDigitsAux 1200 (n % q.den) q.den)

/-- Python `str()` of the leaves `json.dumps` cannot encode natively (the
`default=str` argument).  These branches are unreachable on normalized
values; dates and datetimes follow their ISO `str()` forms, decimals print
their numeric value, byte strings print as a Python bytes literal
(rendered here without byte-level escaping). -/
def strFallback : PyVal → String
  | .pyDecimal q => if q.den = 1 then intStr q.num else floatRepr q
  | .pyDatetime dt =>
      padZero 4 dt.year ++ "-" ++ padZero 2 dt.month ++ "-" ++ padZero 2 dt.day ++ " " ++
        padZero 2 dt.hour ++ ":" ++ padZero 2 dt.minute ++ ":" ++ padZero 2 dt.second ++
        (if dt.microsecond = 0 then "" else "." ++ padZero 6 dt.microsecond)
  | .pyDate d => formatDate d
  | .pyBytes bs => "b\x27" ++ String.mk (bs.map Char.ofNat) ++ "\x27"
  | _ => ""

/-- Wrap already-rendered, already-indented items in brackets: the empty
container renders closed on one line, and otherwise the `","` item
separator is followed by a newline and the closing bracket sits at the
enclosing depth (CPython's indented encoder). -/
def wrapItems (opener closer : String) (d : Nat) (items : List String) : String :=
  match items with
  | [] => opener ++ closer
  | _ => opener ++ "\n" ++ String.intercalate (",\n") items ++ "\n" ++ indentStr d ++ closer

mutual

/-- `json.dumps(v, indent=4, separators=(",", ": "), default=str,
ensure_ascii=False)` rendered at nesting depth `d`: dict keys appear in
insertion order, each item on its own line at four more spaces of indent,
the key separator is `": "`.  Tuples encode as JSON arrays.  The
`default=str` fallback handles the leaves the encoder cannot serialize
natively, which normalization has already eliminated. -/
def jsonDumpsAt (d : Nat) : PyVal → String
  | .pyNone => "null"
  | .pyBool b => if b then "true" else "false"
  | .pyInt n => intStr n
  | .pyFloat q => floatRepr q
  | .pyStr s => quoteStr s
  | .pyDecimal q => quoteStr (strFallback (.pyDecimal q))
  | .pyDatetime dt => quoteStr (strFallback (.pyDatetime dt))
  | .pyDate dd => quoteStr (strFallback (.pyDate dd))
  | .pyBytes bs => quoteStr (strFallback (.pyBytes bs))
  | .pyList xs => wrapItems "[" "]" d (jsonListItems (d + 1) xs)
  | .pyTuple xs => wrapItems "[" "]" d (jsonListItems (d + 1) xs)
  | .pyDict es => wrapItems "\x7b" "\x7d" d (jsonDictItems (d + 1) es)

/-- The rendered items of a JSON array at depth `d`, in order. -/
def jsonListItems (d : Nat) : List PyVal → List String
  | [] => []
  | v :: t => (indentStr d ++ jsonDumpsAt d v) :: jsonListItems d t

/-- The rendered `"key": value` items of a JSON object at depth `d`, in
insertion order, keys unchanged. -/
def jsonDictItems (d : Nat) : List (String × PyVal) → List String
  | [] => []
  | (k, v) :: t => (indentStr d ++ quoteStr k ++ ": " ++ jsonDumpsAt d v) :: jsonDictItems d t

end

/-- Serialization at top level. -/
def jsonDumps (v : PyVal) : String := jsonDumpsAt 0 v

/-- The `actual_json` text of `assert_equals_resultset`: the JSON dump of
the normalized value plus one trailing newline; `none` when normalization
raised `UnicodeDecodeError`. -/
def actualJsonText (v : PyVal) : Option String :=
  (toJsonDumpable v).map (fun w => jsonDumps w ++ "\n")

/-! ## Path resolution -/

/-- Embeds `get_test_fixtures_dir` (the class-level `_fixture_dir`
memoisation only caches this pure computation and is dropped): unless
`filename.find("/tests")` is strictly positive — so a hit at index 0 also
raises — a `ValueError` is raised; otherwise the prefix before the first
`/tests` occurrence plus `/tests/fixtures`. -/
def getTestFixturesDir (filename : String) : Except String String :=
  let pos := pyFind filename "/tests"
  if pos > 0 then .ok (strTake filename pos.toNat ++ "/tests/fixtures")
  else .error ("Unable to determine root tests path from " ++ filename)

/-- The `for` loop of `_get_test_subdir`: drop leading components up to and
including the first `"tests"`, dropping everything when none matches. -/
def dropThroughTests : List String → List String
  | [] => []
  | d :: t => if d = "tests" then t else dropThroughTests t

/-- Embeds `_get_test_subdir`: strip `settings.ROOT_DIR` from the caller
filename (Python `str.replace`, all occurrences), take the directory part,
split on `/`, drop through the first `tests` component and re-join. -/
def getTestSubdir (rootDir filename : String) : String :=
  let dirNames := splitSlashStr (dirname (pyReplace filename rootDir ""))
  String.intercalate "/" (dropThroughTests dirNames)

/-- The resultset-filename computation opening `assert_equals_resultset`:
the sub-directory always comes from the class file `filename`, while the
basename honours the explicit `calling_filename` override when given.
`Except` carries the `ValueError` of `get_test_fixtures_dir`. -/
def buildResultsetPath (rootDir filename methodName : String)
    (callingFilename : Option String) : Except String String :=
  match getTestFixturesDir filename with
  | .error e => .error e
  | .ok fixtures =>
    .ok (fixtures ++ "/resultsets/" ++ getTestSubdir rootDir filename ++ "/" ++
      pyReplace (basename (callingFilename.getD filename)) ".py" "" ++ "/" ++
      methodName ++ ".json")

/-! ## Filesystem model and the assertion protocol -/

/-- A pure filesystem: file contents keyed by path, plus the directories
created so far. -/
structure FS where
  files : List (String × String)
  dirs : List String

/-- The content stored at `p`, if a file is there. -/
def FS.lookupFile (fs : FS) (p : String) : Option String :=
  (fs.files.find? (fun e => e.1 == p)).map Prod.snd

/-- Is there a file at `p`? -/
def FS.hasFile (fs : FS) (p : String) : Bool := (fs.lookupFile p).isSome

/-- `os.path.exists`: true for files and directories alike. -/
def FS.pathExists (fs : FS) (p : String) : Bool := fs.hasFile p || fs.dirs.contains p

/-- `open(p, "w")` followed by a write: truncate or create.  The file list
keeps one entry per path; its internal order is not observable through
`lookupFile`. -/
def FS.writeFile (fs : FS) (p content : String) : FS :=
  { fs with files := (fs.files.filter (fun e => !(e.1 == p))) ++ [(p, content)] }

/-- `open(p, "a+")` followed by a write: append, creating if missing. -/
def FS.appendFile (fs : FS) (p content : String) : FS :=
  match fs.lookupFile p with
  | some old => fs.writeFile p (old ++ content)
  | none => fs.writeFile p content

/-- The `/`-separated prefixes of a path — every proper ancestor and the
path itself: `os.makedirs` creates each of them. -/
def pathPrefixes (d : String) : List String :=
  let parts := splitSlashStr d
  ((List.range (parts.length - 1)).map (fun i => String.intercalate "/" (parts.take (i + 1))))
    ++ [d]

/-- `os.makedirs`: create the directory and every missing ancestor;
re-creating an existing one is harmless here, which is exactly the
`errno.EEXIST` tolerance of the source. -/
def FS.makedirs (fs : FS) (d : String) : FS :=
  { fs with dirs := fs.dirs ++ (pathPrefixes d).filter (fun q => !(fs.dirs.contains q)) }

/-- Embeds `_check_file_can_be_created`: when nothing exists at `filename`,
create the parent directories; the `errno.EEXIST` race is tolerated and no
other OS error arises in this pure model. -/
def checkFileCanBeCreated (fs : FS) (filename : String) : FS :=
  if fs.pathExists filename then fs else fs.makedirs (dirname filename)

/-- The host `PATH` contents consulted by `shutil.which`. -/
structure Env where
  tools : List String

/-- `shutil.which(t) is not None`. -/
def whichFound (env : Env) (t : String) : Bool := env.tools.contains t

/-- The diff command appended on mismatch: the first available of `charm`,
`pycharm-community`, `meld`, `code`, probed in that order (the IDE tools
take `resultset actual`, the `meld`/`code` lines `actual resultset`);
`none` when no tool is found, in which case nothing is appended although
the log file is still opened in `a+` mode. -/
def diffCmdLine (env : Env) (resultsetFilename tmpActualFilename : String) : Option String :=
  if whichFound env "charm" then
    some ("charm diff " ++ resultsetFilename ++ " " ++ tmpActualFilename ++ "\n")
  else if whichFound env "pycharm-community" then
    some ("pycharm-community diff " ++ resultsetFilename ++ " " ++ tmpActualFilename ++ "\n")
  else if whichFound env "meld" then
    some ("meld " ++ tmpActualFilename ++ " " ++ resultsetFilename ++ "\n")
  else if whichFound env "code" then
    some ("code -d " ++ tmpActualFilename ++ " " ++ resultsetFilename ++ "\n")
  else none

/-- The diagnostic dump path
`<root>/.donotcommit_tmp/<caller-basename>-<method>_ACTUAL.json` built in
the mismatch branch (the basename honours the `calling_filename` override,
as in the path computation at the top of the function). -/
def tmpActualPath (rootDir filename methodName : String)
    (callingFilename : Option String) : String :=
  rootDir ++ "/.donotcommit_tmp/" ++
    pyReplace (basename (callingFilename.getD filename)) ".py" "" ++ "-" ++
    methodName ++ "_ACTUAL.json"

/-- The shared diff-commands log `<root>/.donotcommit_tmp_diff_cmd`. -/
def diffLogPath (rootDir : String) : String := rootDir ++ "/.donotcommit_tmp_diff_cmd"

/-- How one call of `assert_equals_resultset` ends: the bare `assert`
failing (re-raised as the original `AssertionError`), another exception
(`ValueError` from path resolution, `UnicodeDecodeError` from
normalization, `IsADirectoryError` when a directory sits at the expected
path), or a normal return. -/
inductive AssertOutcome where
  | passed : AssertOutcome
  | assertionFailed : AssertOutcome
  | errorRaised : String → AssertOutcome
deriving DecidableEq

/-- The tail of `assert_equals_resultset` after the expected content has
been read (`some text`) or found absent and replaced by `\x7b\x7d` on disk
(`none`, Python `expected = None`): serialize the normalized actual value,
compare, and on mismatch write the `_ACTUAL.json` dump, open the
diff-command log in `a+` mode — appending the chosen tool's line when one
of the four probes hits — and re-raise the `AssertionError`. -/
def assertCompare (env : Env) (rootDir filename methodName : String)
    (callingFilename : Option String) (resultsetFilename : String)
    (expected : Option String) (actual : PyVal) (fs2 : FS) : FS × AssertOutcome :=
  match toJsonDumpable actual with
  | none => (fs2, .errorRaised "UnicodeDecodeError")
  | some normalized =>
    let actualJson := jsonDumps normalized ++ "\n"
    if expected = some actualJson then (fs2, .passed)
    else
      let tmpActualFilename := tmpActualPath rootDir filename methodName callingFilename
      let fs3 := checkFileCanBeCreated fs2 tmpActualFilename
      let fs4 := fs3.writeFile tmpActualFilename actualJson
      let fs5 :=
        match diffCmdLine env resultsetFilename tmpActualFilename with
        | some line => fs4.appendFile (diffLogPath rootDir) line
        | none => fs4.appendFile (diffLogPath rootDir) ""
      (fs5, .assertionFailed)

/-- Embeds `assert_equals_resultset`.  Call-stack introspection is replaced
by the explicit `filename` (the test class file) and `methodName` (the
running test method) it computes; `rootDir` is `settings.ROOT_DIR`; console
output (the failure banner and the `diff` subprocess) is not part of the
state.  The filesystem effects — creating the missing expected file with
`\x7b\x7d`, writing the `_ACTUAL.json` dump and appending to the
diff-command log on mismatch — thread through `FS`. -/
def assertEqualsResultset (env : Env) (rootDir filename methodName : String)
    (callingFilename : Option String) (actual : PyVal) (fs : FS) : FS × AssertOutcome :=
  match buildResultsetPath rootDir filename methodName callingFilename with
  | .error e => (fs, .errorRaised e)
  | .ok resultsetFilename =>
    let fs1 := checkFileCanBeCreated fs resultsetFilename
    if fs1.pathExists resultsetFilename then
      match fs1.lookupFile resultsetFilename with
      | none => (fs1, .errorRaised "IsADirectoryError")
      | some expectedText =>
        assertCompare env rootDir filename methodName callingFilename resultsetFilename
          (some expectedText) actual fs1
    else
      assertCompare env rootDir filename methodName callingFilename resultsetFilename
        none actual (fs1.writeFile resultsetFilename "\x7b\x7d")

/-! ## Normal forms -/

mutual

/-- A value is normalized when no `Decimal`, `datetime`, `date`, byte-string
or tuple node remains at any depth: exactly the shapes `_to_json_dumpable`
leaves unchanged. -/
def isNormalized : PyVal → Bool
  | .pyDecimal _ => false
  | .pyDatetime _ => false
  | .pyDate _ => false
  | .pyBytes _ => false
  | .pyTuple _ => false
  | .pyDict es => isNormalizedEntries es
  | .pyList xs => isNormalizedList xs
  | .pyNone => true
  | .pyBool _ => true
  | .pyInt _ => true
  | .pyFloat _ => true
  | .pyStr _ => true

/-- All elements normalized. -/
def isNormalizedList : List PyVal → Bool
  | [] => true
  | x :: t => isNormalized x && isNormalizedList t

/-- All values normalized. -/
def isNormalizedEntries : List (String × PyVal) → Bool
  | [] => true
  | (_, v) :: t => isNormalized v && isNormalizedEntries t

end

/-! ## Heap model of in-place normalization

`_to_json_dumpable` mutates dicts and lists in place (`data[k] = ...`,
`data[idx] = ...`) and returns the object it was given, while a tuple is
first copied by `list(data)`.  Object identity is invisible to the pure
value view above, so the mutation contract is stated against an explicit
heap: containers live at heap addresses, leaves are held immediately
(Python leaves here are immutable, so their identity never matters). -/

/-- A Python reference value: an immutable leaf held directly, or the
address of a container object in the heap. -/
inductive HVal where
  | imm : PyVal → HVal
  | ref : Nat → HVal

/-- A heap object: one of the three container kinds, holding reference
values. -/
inductive HObj where
  | dictObj : List (String × HVal) → HObj
  | listObj : List HVal → HObj
  | tupleObj : List HVal → HObj

/-- The heap: objects addressed by position; allocation appends. -/
abbrev Heap := List HObj

/-- Thread a normalization step over the elements of a list object, left to
right, passing the heap along (the `enumerate` loop body). -/
def threadNorm (step : Heap → HVal → Option (Heap × HVal)) :
    Heap → List HVal → Option (Heap × List HVal)
  | h, [] => some (h, [])
  | h, x :: t =>
    match step h x with
    | none => none
    | some (h1, x') =>
      match threadNorm step h1 t with
      | none => none
      | some (h2, t') => some (h2, x' :: t')

/-- Thread a normalization step over the values of a dict object, keys
unchanged (the `data.items()` loop body). -/
def threadNormEntries (step : Heap → HVal → Option (Heap × HVal)) :
    Heap → List (String × HVal) → Option (Heap × List (String × HVal))
  | h, [] => some (h, [])
  | h, (k, v) :: t =>
    match step h v with
    | none => none
    | some (h1, v') =>
      match threadNormEntries step h1 t with
      | none => none
      | some (h2, t') => some (h2, (k, v') :: t')

/-- `_to_json_dumpable` over the heap: a dict or list is updated in place at
its existing address and that same reference is returned; a tuple is first
copied into a freshly allocated list (`list(data)`), which is then
normalized in place and returned.  The fuel bounds the recursion depth (a
cyclic object graph does not terminate in Python either); `none` models
fuel exhaustion, a dangling reference, or `UnicodeDecodeError`. -/
def normHVal : Nat → Heap → HVal → Option (Heap × HVal)
  | _, h, .imm v => (toJsonDumpable v).map (fun w => (h, .imm w))
  | 0, _, .ref _ => none
  | fuel + 1, h, .ref r =>
    match h.get? r with
    | none => none
    | some (.dictObj es) =>
      match threadNormEntries (normHVal fuel) h es with
      | none => none
      | some (h1, es') => some (h1.set r (.dictObj es'), .ref r)
    | some (.listObj xs) =>
      match threadNorm (normHVal fuel) h xs with
      | none => none
      | some (h1, xs') => some (h1.set r (.listObj xs'), .ref r)
    | some (.tupleObj xs) => normHVal fuel (h ++ [HObj.listObj xs]) (.ref h.length)

/-! ## Normalization lemmas -/

mutual

/-- The output of a successful normalization is in normal form. -/
theorem toJsonDumpable_normalized :
    ∀ v w, toJsonDumpable v = some w → isNormalized w = true
  | .pyDecimal _, _, h => by
      simp only [toJsonDumpable, Option.some.injEq] at h
      exact h ▸ rfl
  | .pyDatetime _, _, h => by
      simp only [toJsonDumpable, Option.some.injEq] at h
      exact h ▸ rfl
  | .pyDate _, _, h => by
      simp only [toJsonDumpable, Option.some.injEq] at h
      exact h ▸ rfl
  | .pyBytes bs, w, h => by
      simp only [toJsonDumpable] at h
      rw [Option.map_eq_some'] at h
      obtain ⟨s, _, hw⟩ := h
      exact hw ▸ rfl
  | .pyDict es, w, h => by
      simp only [toJsonDumpable] at h
      rw [Option.map_eq_some'] at h
      obtain ⟨fs, hfs, hw⟩ := h
      subst hw
      simpa only [isNormalized] using toJsonDumpableEntries_normalized es fs hfs
  | .pyList xs, w, h => by
      simp only [toJsonDumpable] at h
      rw [Option.map_eq_some'] at h
      obtain ⟨ys, hys, hw⟩ := h
      subst hw
      simpa only [isNormalized] using toJsonDumpableList_normalized xs ys hys
  | .pyTuple xs, w, h => by
      simp only [toJsonDumpable] at h
      rw [Option.map_eq_some'] at h
      obtain ⟨ys, hys, hw⟩ := h
      subst hw
      simpa only [isNormalized] using toJsonDumpableList_normalized xs ys hys
  | .pyNone, _, h => by
      simp only [toJsonDumpable, Option.some.injEq] at h
      exact h ▸ rfl
  | .pyBool _, _, h => by
      simp only [toJsonDumpable, Option.some.injEq] at h
      exact h ▸ rfl
  | .pyInt _, _, h => by
      simp only [toJsonDumpable, Option.some.injEq] at h
      exact h ▸ rfl
  | .pyFloat _, _, h => by
      simp only [toJsonDumpable, Option.some.injEq] at h
      exact h ▸ rfl
  | .pyStr _, _, h => by
      simp only [toJsonDumpable, Option.some.injEq] at h
      exact h ▸ rfl

/-- Elements of a successfully normalized list are in normal form. -/
theorem toJsonDumpableList_normalized :
    ∀ xs ys, toJsonDumpableList xs = some ys → isNormalizedList ys = true
  | [], ys, h => by
      simp only [toJsonDumpableList, Option.some.injEq] at h
      exact h ▸ rfl
  | x :: t, ys, h => by
      simp only [toJsonDumpableList] at h
      cases hx : toJsonDumpable x with
      | none => rw [hx] at h; simp at h
      | some x' =>
        rw [hx] at h
        cases ht : toJsonDumpableList t with
        | none =>
          rw [ht] at h
          have hn : (none : Option (List PyVal)) = some ys := h
          simp at hn
        | some t' =>
          rw [ht] at h
          have hs : some (x' :: t') = some ys := h
          obtain rfl : x' :: t' = ys := Option.some.inj hs
          simp only [isNormalizedList, Bool.and_eq_true]
          exact ⟨toJsonDumpable_normalized x x' hx, toJsonDumpableList_normalized t t' ht⟩

/-- Values of successfully normalized dict entries are in normal form. -/
theorem toJsonDumpableEntries_normalized :
    ∀ es fs, toJsonDumpableEntries es = some fs → isNormalizedEntries fs = true
  | [], fs, h => by
      simp only [toJsonDumpableEntries, Option.some.injEq] at h
      exact h ▸ rfl
  | (k, v) :: t, fs, h => by
      simp only [toJsonDumpableEntries] at h
      cases hv : toJsonDumpable v with
      | none => rw [hv] at h; simp at h
      | some v' =>
        rw [hv] at h
        cases ht : toJsonDumpableEntries t with
        | none =>
          rw [ht] at h
          have hn : (none : Option (List (String × PyVal))) = some fs := h
          simp at hn
        | some t' =>
          rw [ht] at h
          have hs : some ((k, v') :: t') = some fs := h
          obtain rfl : (k, v') :: t' = fs := Option.some.inj hs
          simp only [isNormalizedEntries, Bool.and_eq_true]
          exact ⟨toJsonDumpable_normalized v v' hv, toJsonDumpableEntries_normalized t t' ht⟩

end

mutual

/-- A value in normal form is a fixed point of normalization. -/
theorem isNormalized_fixed :
    ∀ v, isNormalized v = true → toJsonDumpable v = some v
  | .pyNone, _ => rfl
  | .pyBool _, _ => rfl
  | .pyInt _, _ => rfl
  | .pyFloat _, _ => rfl
  | .pyStr _, _ => rfl
  | .pyDecimal _, h => by simp [isNormalized] at h
  | .pyDatetime _, h => by simp [isNormalized] at h
  | .pyDate _, h => by simp [isNormalized] at h
  | .pyBytes _, h => by simp [isNormalized] at h
  | .pyTuple _, h => by simp [isNormalized] at h
  | .pyDict es, h => by
      have he := isNormalizedEntries_fixed es (by simpa only [isNormalized] using h)
      simp only [toJsonDumpable, he, Option.map_some']
  | .pyList xs, h => by
      have hl := isNormalizedList_fixed xs (by simpa only [isNormalized] using h)
      simp only [toJsonDumpable, hl, Option.map_some']

/-- A list of normal forms is a fixed point of element-wise normalization. -/
theorem isNormalizedList_fixed :
    ∀ xs, isNormalizedList xs = true → toJsonDumpableList xs = some xs
  | [], _ => rfl
  | x :: t, h => by
      have hs : isNormalized x = true ∧ isNormalizedList t = true := by
        simpa only [isNormalizedList, Bool.and_eq_true] using h
      simp only [toJsonDumpableList, isNormalized_fixed x hs.1, isNormalizedList_fixed t hs.2]
      rfl

/-- Entries with normal-form values are a fixed point of value-wise
normalization. -/
theorem isNormalizedEntries_fixed :
    ∀ es, isNormalizedEntries es = true → toJsonDumpableEntries es = some es
  | [], _ => rfl
  | (k, v) :: t, h => by
      have hs : isNormalized v = true ∧ isNormalizedEntries t = true := by
        simpa only [isNormalizedEntries, Bool.and_eq_true] using h
      simp only [toJsonDumpableEntries, isNormalized_fixed v hs.1, isNormalizedEntries_fixed t hs.2]
      rfl

end

/-- Element-wise description of a successful list normalization. -/
theorem toJsonDumpableList_forall2 :
    ∀ xs ys, toJsonDumpableList xs = some ys →
      List.Forall₂ (fun x x' => toJsonDumpable x = some x') xs ys
  | [], ys, h => by
      obtain rfl : ([] : List PyVal) = ys := Option.some.inj h
      exact List.Forall₂.nil
  | x :: t, ys, h => by
      simp only [toJsonDumpableList] at h
      cases hx : toJsonDumpable x with
      | none => rw [hx] at h; simp at h
      | some x' =>
        rw [hx] at h
        cases ht : toJsonDumpableList t with
        | none =>
          rw [ht] at h
          have hn : (none : Option (List PyVal)) = some ys := h
          simp at hn
        | some t' =>
          rw [ht] at h
          obtain rfl : x' :: t' = ys := Option.some.inj (h : some (x' :: t') = some ys)
          exact List.Forall₂.cons hx (toJsonDumpableList_forall2 t t' ht)

/-- Key preservation and value-wise description of a successful dict
normalization. -/
theorem toJsonDumpableEntries_spec :
    ∀ es fs, toJsonDumpableEntries es = some fs →
      fs.map Prod.fst = es.map Prod.fst ∧
        List.Forall₂ (fun e e' : String × PyVal => toJsonDumpable e.2 = some e'.2) es fs
  | [], fs, h => by
      obtain rfl : ([] : List (String × PyVal)) = fs := Option.some.inj h
      exact ⟨rfl, List.Forall₂.nil⟩
  | (k, v) :: t, fs, h => by
      simp only [toJsonDumpableEntries] at h
      cases hv : toJsonDumpable v with
      | none => rw [hv] at h; simp at h
      | some v' =>
        rw [hv] at h
        cases ht : toJsonDumpableEntries t with
        | none =>
          rw [ht] at h
          have hn : (none : Option (List (String × PyVal))) = some fs := h
          simp at hn
        | some t' =>
          rw [ht] at h
          obtain rfl : (k, v') :: t' = fs := Option.some.inj (h : some ((k, v') :: t') = some fs)
          obtain ⟨hkeys, hvals⟩ := toJsonDumpableEntries_spec t t' ht
          exact ⟨by simpa using hkeys, List.Forall₂.cons hv hvals⟩

/-! ## Claim theorems: normalization (C2, C3, C4) -/

/-- C2: normalization is deterministic (it is a pure function of its input)
and idempotent — whenever `_to_json_dumpable` maps `v` to `w`, applying it
to `w` returns `w` unchanged, so the serialized JSON text after two
applications equals the text after one; and every already-normalized value
is returned unchanged. -/
theorem toJsonDumpable_idempotent :
    (∀ v w, toJsonDumpable v = some w → toJsonDumpable w = some w) ∧
    (∀ u, isNormalized u = true → toJsonDumpable u = some u) :=
  ⟨fun v w h => isNormalized_fixed w (toJsonDumpable_normalized v w h), isNormalized_fixed⟩

/-- Witness for C2 at a concrete nested input: a tuple holding a decimal
and a byte string normalizes to a list holding a float and a string, and
that result is a fixed point. -/
theorem toJsonDumpable_idempotent_witness :
    toJsonDumpable (.pyList [.pyFloat 3, .pyStr "hi"]) =
      some (.pyList [.pyFloat 3, .pyStr "hi"]) :=
  toJsonDumpable_idempotent.1 (.pyTuple [.pyDecimal 3, .pyBytes [104, 105]])
    (.pyList [.pyFloat 3, .pyStr "hi"]) rfl

/-- C3: the leaf conversion table of `_to_json_dumpable` — a decimal
becomes the float `float(input)`; a datetime becomes the zero-padded string
`YYYY-MM-DD HH:MM:SS.ffffff`; a date becomes `YYYY-MM-DD`; a byte string
becomes its UTF-8 decoding; and every other non-container leaf (bool, int,
float, str, None) is returned unchanged. -/
theorem toJsonDumpable_leaf_table :
    (∀ q : Rat, toJsonDumpable (.pyDecimal q) = some (.pyFloat (floatOfDecimal q))) ∧
    (∀ dt : PyDatetime, toJsonDumpable (.pyDatetime dt) =
      some (.pyStr (padZero 4 dt.year ++ "-" ++ padZero 2 dt.month ++ "-" ++ padZero 2 dt.day ++
        " " ++ padZero 2 dt.hour ++ ":" ++ padZero 2 dt.minute ++ ":" ++ padZero 2 dt.second ++
        "." ++ padZero 6 dt.microsecond))) ∧
    (∀ d : PyDate, toJsonDumpable (.pyDate d) =
      some (.pyStr (padZero 4 d.year ++ "-" ++ padZero 2 d.month ++ "-" ++ padZero 2 d.day))) ∧
    (∀ bs s, utf8Decode? bs = some s → toJsonDumpable (.pyBytes bs) = some (.pyStr s)) ∧
    (∀ b, toJsonDumpable (.pyBool b) = some (.pyBool b)) ∧
    (∀ n, toJsonDumpable (.pyInt n) = some (.pyInt n)) ∧
    (∀ q, toJsonDumpable (.pyFloat q) = some (.pyFloat q)) ∧
    (∀ s, toJsonDumpable (.pyStr s) = some (.pyStr s)) ∧
    toJsonDumpable .pyNone = some .pyNone := by
  refine ⟨fun q => rfl, fun dt => rfl, fun d => rfl, fun bs s h => ?_, fun b => rfl,
    fun n => rfl, fun q => rfl, fun s => rfl, rfl⟩
  show (utf8Decode? bs).map PyVal.pyStr = some (.pyStr s)
  rw [h]
  rfl

/-- Witness for C3: the byte-string clause at the concrete two-byte UTF-8
encoding of `é`. -/
theorem toJsonDumpable_leaf_table_witness :
    toJsonDumpable (.pyBytes [195, 169]) = some (.pyStr "é") :=
  toJsonDumpable_leaf_table.2.2.2.1 [195, 169] "é" rfl

/-- C4: normalization recurses depth-first into containers — a dict maps to
a dict with the same keys in the same order and each value normalized; a
list maps to the list of its normalized elements in order; a tuple maps to
the list of its normalized elements; and (arbitrary-depth leaf coverage)
the output of any successful normalization contains no decimal, datetime,
date, byte-string or tuple node at any depth. -/
theorem toJsonDumpable_recursive :
    (∀ es w, toJsonDumpable (.pyDict es) = some w →
      ∃ fs, w = .pyDict fs ∧ fs.map Prod.fst = es.map Prod.fst ∧
        List.Forall₂ (fun e e' : String × PyVal => toJsonDumpable e.2 = some e'.2) es fs) ∧
    (∀ xs w, toJsonDumpable (.pyList xs) = some w →
      ∃ ys, w = .pyList ys ∧ List.Forall₂ (fun x x' => toJsonDumpable x = some x') xs ys) ∧
    (∀ xs w, toJsonDumpable (.pyTuple xs) = some w →
      ∃ ys, w = .pyList ys ∧ List.Forall₂ (fun x x' => toJsonDumpable x = some x') xs ys) ∧
    (∀ v w, toJsonDumpable v = some w → isNormalized w = true) := by
  refine ⟨fun es w h => ?_, fun xs w h => ?_, fun xs w h => ?_, toJsonDumpable_normalized⟩
  · simp only [toJsonDumpable] at h
    rw [Option.map_eq_some'] at h
    obtain ⟨fs, hfs, rfl⟩ := h
    obtain ⟨hkeys, hvals⟩ := toJsonDumpableEntries_spec es fs hfs
    exact ⟨fs, rfl, hkeys, hvals⟩
  · simp only [toJsonDumpable] at h
    rw [Option.map_eq_some'] at h
    obtain ⟨ys, hys, rfl⟩ := h
    exact ⟨ys, rfl, toJsonDumpableList_forall2 xs ys hys⟩
  · simp only [toJsonDumpable] at h
    rw [Option.map_eq_some'] at h
    obtain ⟨ys, hys, rfl⟩ := h
    exact ⟨ys, rfl, toJsonDumpableList_forall2 xs ys hys⟩

/-- Witness for C4: the dict clause at a concrete mapping whose value is a
list nesting a decimal. -/
theorem toJsonDumpable_recursive_witness :
    ∃ fs, (PyVal.pyDict [("a", .pyList [.pyFloat 2])]) = .pyDict fs ∧
      fs.map Prod.fst = [("a", PyVal.pyList [.pyDecimal 2])].map Prod.fst ∧
      List.Forall₂ (fun e e' : String × PyVal => toJsonDumpable e.2 = some e'.2)
        [("a", PyVal.pyList [.pyDecimal 2])] fs :=
  toJsonDumpable_recursive.1 [("a", .pyList [.pyDecimal 2])]
    (.pyDict [("a", .pyList [.pyFloat 2])]) rfl

/-! ## Claim theorems: path resolution (C6, C7) -/

/-- C6 counterexample: for a caller file directly under `/tests`, the
marker `/tests` is located in the absolute path (its first occurrence is at
index 0), yet `get_test_fixtures_dir` raises `ValueError`, because the
source demands a strictly positive `find` result — so "fails iff the
marker cannot be located" is false as stated. -/
theorem getTestFixturesDir_zero_index_counterexample :
    pyFind "/tests/unit/test_foo.py" "/tests" = 0 ∧
    getTestFixturesDir "/tests/unit/test_foo.py" =
      .error "Unable to determine root tests path from /tests/unit/test_foo.py" :=
  ⟨rfl, rfl⟩

/-- C6 (amended): resolving the fixtures directory raises `ValueError` if
and only if the first occurrence of `/tests` in the caller path is not at a
strictly positive index — the marker is absent, or sits at index 0; when
the marker first occurs at a positive index `p`, the result is the path
prefix of length `p` followed by `/tests/fixtures`. -/
theorem getTestFixturesDir_spec (filename : String) :
    ((∃ e, getTestFixturesDir filename = .error e) ↔ ¬ 0 < pyFind filename "/tests") ∧
    (∀ p : Nat, pyFind filename "/tests" = (p : Int) → 0 < p →
      getTestFixturesDir filename = .ok (strTake filename p ++ "/tests/fixtures")) := by
  constructor
  · constructor
    · rintro ⟨e, he⟩ hpos
      unfold getTestFixturesDir at he
      rw [if_pos (show pyFind filename "/tests" > 0 from hpos)] at he
      exact Except.noConfusion he
    · intro hneg
      refine ⟨"Unable to determine root tests path from " ++ filename, ?_⟩
      unfold getTestFixturesDir
      rw [if_neg (show ¬ pyFind filename "/tests" > 0 from hneg)]
  · intro p hp hpos
    unfold getTestFixturesDir
    have hgt : pyFind filename "/tests" > 0 := by
      rw [hp]; exact_mod_cast hpos
    rw [if_pos hgt, hp]
    simp [Int.toNat_natCast]

/-- Witness for C6 at `/proj/tests/x.py`: the marker occurs at index 5 and
the fixtures directory is the prefix `/proj` plus `/tests/fixtures`. -/
theorem getTestFixturesDir_spec_witness :
    getTestFixturesDir "/proj/tests/x.py" =
      .ok (strTake "/proj/tests/x.py" 5 ++ "/tests/fixtures") :=
  (getTestFixturesDir_spec "/proj/tests/x.py").2 5 (by decide) (by decide)

/-- C7: for a caller file at `<root>/app/tests/unit/test_foo.py`, the
mirrored sub-directory is `unit` (the path between the tests-root marker
and the file, marker segment excluded), the file segment is `test_foo`,
and the expected-file path is
`<fixtures-dir>/resultsets/unit/test_foo/<method-name>.json`.  The two
string hypotheses pin down CPython `str.replace` and `os.path.basename`
on the concatenated path for an arbitrary root prefix. -/
theorem resultsetPath_mirrors_caller (root method fixtures : String)
    (hrep : pyReplace (root ++ "/app/tests/unit/test_foo.py") root "" =
      "/app/tests/unit/test_foo.py")
    (hbase : basename (root ++ "/app/tests/unit/test_foo.py") = "test_foo.py")
    (hfix : getTestFixturesDir (root ++ "/app/tests/unit/test_foo.py") = .ok fixtures) :
    getTestSubdir root (root ++ "/app/tests/unit/test_foo.py") = "unit" ∧
    pyReplace (basename (root ++ "/app/tests/unit/test_foo.py")) ".py" "" = "test_foo" ∧
    buildResultsetPath root (root ++ "/app/tests/unit/test_foo.py") method none =
      .ok (fixtures ++ "/resultsets/" ++ "unit" ++ "/" ++ "test_foo" ++ "/" ++
        method ++ ".json") := by
  have hsub : getTestSubdir root (root ++ "/app/tests/unit/test_foo.py") = "unit" := by
    unfold getTestSubdir
    rw [hrep]
    rfl
  have hnoext : pyReplace (basename (root ++ "/app/tests/unit/test_foo.py")) ".py" "" =
      "test_foo" := by
    rw [hbase]
    rfl
  refine ⟨hsub, hnoext, ?_⟩
  simp only [buildResultsetPath, hfix, Option.getD_none, hsub, hnoext]

/-- Witness for C7 with root `/proj` and method `test_m`. -/
theorem resultsetPath_mirrors_caller_witness :
    getTestSubdir "/proj" ("/proj" ++ "/app/tests/unit/test_foo.py") = "unit" ∧
    pyReplace (basename ("/proj" ++ "/app/tests/unit/test_foo.py")) ".py" "" = "test_foo" ∧
    buildResultsetPath "/proj" ("/proj" ++ "/app/tests/unit/test_foo.py") "test_m" none =
      .ok ("/proj/app/tests/fixtures" ++ "/resultsets/" ++ "unit" ++ "/" ++ "test_foo" ++
        "/" ++ "test_m" ++ ".json") :=
  resultsetPath_mirrors_caller "/proj" "test_m" "/proj/app/tests/fixtures" rfl rfl rfl

/-! ## Filesystem lemmas -/

/-- Writing a file makes its content readable back. -/
theorem FS.lookupFile_writeFile_self (fs : FS) (p c : String) :
    (fs.writeFile p c).lookupFile p = some c := by
  unfold FS.writeFile FS.lookupFile
  rw [List.find?_append]
  have hnone : (fs.files.filter (fun e => !(e.1 == p))).find? (fun e => e.1 == p) = none := by
    rw [List.find?_eq_none]
    intro e he
    have hf := List.of_mem_filter he
    simp only [Bool.not_eq_true'] at hf
    simp [hf]
  rw [hnone]
  simp

/-- A key-based search ignores entries removed for a different key. -/
theorem find?_filter_keyNe (p q : String) (h : q ≠ p) :
    ∀ l : List (String × String),
      (l.filter (fun e => !(e.1 == p))).find? (fun e => e.1 == q) =
        l.find? (fun e => e.1 == q)
  | [] => rfl
  | e :: t => by
      by_cases hp : e.1 = p
      · have hq : (e.1 == q) = false := beq_false_of_ne (by rw [hp]; exact Ne.symm h)
        have hp' : (e.1 == p) = true := by rw [beq_iff_eq]; exact hp
        simp [List.filter_cons, hp', List.find?_cons, hq, find?_filter_keyNe p q h t]
      · have hp' : (e.1 == p) = false := beq_false_of_ne hp
        by_cases hq : e.1 = q
        · have hq' : (e.1 == q) = true := by rw [beq_iff_eq]; exact hq
          simp [List.filter_cons, hp', List.find?_cons, hq']
        · have hq' : (e.1 == q) = false := beq_false_of_ne hq
          simp [List.filter_cons, hp', List.find?_cons, hq', find?_filter_keyNe p q h t]

/-- Writing one file leaves every other path unchanged. -/
theorem FS.lookupFile_writeFile_other (fs : FS) (p q c : String) (h : q ≠ p) :
    (fs.writeFile p c).lookupFile q = fs.lookupFile q := by
  unfold FS.writeFile FS.lookupFile
  rw [List.find?_append]
  have h2 : List.find? (fun e : String × String => e.1 == q) [(p, c)] = none := by
    have : ((p, c).1 == q) = false := beq_false_of_ne (Ne.symm h)
    simp [List.find?_cons, this]
  rw [h2, Option.or_none, find?_filter_keyNe p q h]

/-- `makedirs` leaves the files untouched. -/
theorem FS.files_makedirs (fs : FS) (d : String) : (fs.makedirs d).files = fs.files := rfl

/-- `writeFile` leaves the directories untouched. -/
theorem FS.dirs_writeFile (fs : FS) (p c : String) : (fs.writeFile p c).dirs = fs.dirs := rfl

/-- `_check_file_can_be_created` never changes file contents. -/
theorem files_checkFileCanBeCreated (fs : FS) (f : String) :
    (checkFileCanBeCreated fs f).files = fs.files := by
  unfold checkFileCanBeCreated
  split <;> rfl

/-- Reading through `_check_file_can_be_created` is reading the original. -/
theorem lookupFile_checkFileCanBeCreated (fs : FS) (f p : String) :
    (checkFileCanBeCreated fs f).lookupFile p = fs.lookupFile p := by
  unfold FS.lookupFile
  rw [files_checkFileCanBeCreated]

/-- `_check_file_can_be_created` only adds directories. -/
theorem dirs_subset_checkFileCanBeCreated (fs : FS) (f q : String) (hq : q ∈ fs.dirs) :
    q ∈ (checkFileCanBeCreated fs f).dirs := by
  unfold checkFileCanBeCreated
  split
  · exact hq
  · exact List.mem_append_left _ hq

/-- `makedirs d` records every prefix of `d` as created. -/
theorem mem_dirs_makedirs (fs : FS) (d q : String) (h : q ∈ pathPrefixes d) :
    q ∈ (fs.makedirs d).dirs := by
  unfold FS.makedirs
  by_cases hq : q ∈ fs.dirs
  · exact List.mem_append_left _ hq
  · refine List.mem_append_right _ ?_
    rw [List.mem_filter]
    refine ⟨h, ?_⟩
    simp only [Bool.not_eq_true']
    cases hcontains : fs.dirs.contains q
    · rfl
    · exact absurd (List.elem_iff.mp hcontains) hq

/-- A path is among its own prefixes. -/
theorem self_mem_pathPrefixes (d : String) : d ∈ pathPrefixes d := by
  unfold pathPrefixes
  exact List.mem_append_right _ (List.mem_singleton.mpr rfl)

/-- Appending to a file concatenates to its previous content (empty when the
file did not exist, as `a+` creates it). -/
theorem FS.lookupFile_appendFile_self (fs : FS) (p c : String) :
    (fs.appendFile p c).lookupFile p = some ((fs.lookupFile p).getD "" ++ c) := by
  unfold FS.appendFile
  cases h : fs.lookupFile p with
  | some old => rw [FS.lookupFile_writeFile_self]; rfl
  | none => rw [FS.lookupFile_writeFile_self]; rfl

/-- Appending to one file leaves every other path unchanged. -/
theorem FS.lookupFile_appendFile_other (fs : FS) (p q c : String) (h : q ≠ p) :
    (fs.appendFile p c).lookupFile q = fs.lookupFile q := by
  unfold FS.appendFile
  cases fs.lookupFile p <;> rw [FS.lookupFile_writeFile_other _ _ _ _ h]

/-- A readable file exists. -/
theorem FS.hasFile_of_lookupFile (fs : FS) (p t : String) (h : fs.lookupFile p = some t) :
    fs.hasFile p = true := by
  unfold FS.hasFile
  rw [h]
  rfl

/-- Appending to a file leaves the directories untouched. -/
theorem FS.dirs_appendFile (fs : FS) (p c : String) : (fs.appendFile p c).dirs = fs.dirs := by
  unfold FS.appendFile
  cases fs.lookupFile p <;> rfl

/-! ## Claim theorems: assertion protocol (C9, C1, C5) -/

/-- C9: when the expected file exists and its raw text equals the
serialized actual text byte for byte, the assertion returns normally with
the filesystem exactly as it was — no file writes, no directory creation,
no log append, no other observable effect. -/
theorem assertEquals_match (env : Env) (rootDir filename methodName rs : String)
    (callingFilename : Option String) (actual norm : PyVal) (fs : FS)
    (hpath : buildResultsetPath rootDir filename methodName callingFilename = .ok rs)
    (hnorm : toJsonDumpable actual = some norm)
    (hfile : fs.lookupFile rs = some (jsonDumps norm ++ "\n")) :
    assertEqualsResultset env rootDir filename methodName callingFilename actual fs =
      (fs, .passed) := by
  have hhas : fs.hasFile rs = true := FS.hasFile_of_lookupFile fs rs _ hfile
  have hpe : fs.pathExists rs = true := by
    unfold FS.pathExists
    rw [hhas]
    rfl
  have hfs1 : checkFileCanBeCreated fs rs = fs := by
    unfold checkFileCanBeCreated
    simp [hpe]
  simp only [assertEqualsResultset, hpath, hfs1, hpe, if_true, hfile, assertCompare, hnorm]

/-- Witness for C9: the spec's concrete example — actual value
`{"a": 1}` against an expected file containing exactly
`{\n    "a": 1\n}\n` passes and returns the filesystem unchanged. -/
theorem assertEquals_match_witness :
    assertEqualsResultset ⟨[]⟩ "/proj" "/proj/app/tests/unit/test_x.py" "test_m" none
        (.pyDict [("a", .pyInt 1)])
        ⟨[("/proj/app/tests/fixtures/resultsets/unit/test_x/test_m.json",
           "\x7b\n    \"a\": 1\n\x7d\n")], []⟩ =
      (⟨[("/proj/app/tests/fixtures/resultsets/unit/test_x/test_m.json",
          "\x7b\n    \"a\": 1\n\x7d\n")], []⟩, .passed) :=
  assertEquals_match ⟨[]⟩ "/proj" "/proj/app/tests/unit/test_x.py" "test_m"
    "/proj/app/tests/fixtures/resultsets/unit/test_x/test_m.json" none
    (.pyDict [("a", .pyInt 1)]) (.pyDict [("a", .pyInt 1)])
    ⟨[("/proj/app/tests/fixtures/resultsets/unit/test_x/test_m.json",
       "\x7b\n    \"a\": 1\n\x7d\n")], []⟩ rfl rfl rfl

/-- C1: when nothing exists at the expected path, the call creates every
missing parent directory of that path, writes `\x7b\x7d` to it, and the
assertion can never pass on that same invocation — the outcome is the
re-raised `AssertionError` whenever serialization succeeds and an exception
otherwise, never a normal return (the `none` expected content cannot equal
any serialized text).  The two inequations rule out the degenerate aliasing
of the diagnostic paths with the expected path, and `hself` the degenerate
path whose parent directory is itself. -/
theorem assertEquals_missing (env : Env) (rootDir filename methodName rs : String)
    (callingFilename : Option String) (actual : PyVal) (fs : FS)
    (hpath : buildResultsetPath rootDir filename methodName callingFilename = .ok rs)
    (hmiss : fs.pathExists rs = false)
    (hself : rs ∉ pathPrefixes (dirname rs))
    (htmp : tmpActualPath rootDir filename methodName callingFilename ≠ rs)
    (hlog : diffLogPath rootDir ≠ rs) :
    ((assertEqualsResultset env rootDir filename methodName callingFilename actual
        fs).1).lookupFile rs = some "\x7b\x7d" ∧
    (∀ q ∈ pathPrefixes (dirname rs),
      q ∈ ((assertEqualsResultset env rootDir filename methodName callingFilename actual
        fs).1).dirs) ∧
    (assertEqualsResultset env rootDir filename methodName callingFilename actual fs).2 ≠
      .passed ∧
    (∀ w, toJsonDumpable actual = some w →
      (assertEqualsResultset env rootDir filename methodName callingFilename actual fs).2 =
        .assertionFailed) := by
  have hparts := Bool.or_eq_false_iff.mp (show (fs.hasFile rs || fs.dirs.contains rs) = false
    from hmiss)
  have hfs1 : checkFileCanBeCreated fs rs = fs.makedirs (dirname rs) := by
    unfold checkFileCanBeCreated
    simp [hmiss]
  have hMhas : (fs.makedirs (dirname rs)).hasFile rs = false := hparts.1
  have hMcont : (fs.makedirs (dirname rs)).dirs.contains rs = false := by
    cases hc : (fs.makedirs (dirname rs)).dirs.contains rs
    · rfl
    · exfalso
      have hmem := List.elem_iff.mp hc
      unfold FS.makedirs at hmem
      rcases List.mem_append.mp hmem with hl | hr
      · have hc2 : fs.dirs.contains rs = true := List.elem_iff.mpr hl
        rw [hparts.2] at hc2
        exact Bool.false_ne_true hc2
      · exact hself (List.mem_of_mem_filter hr)
  have hMpe : (fs.makedirs (dirname rs)).pathExists rs = false := by
    unfold FS.pathExists
    rw [hMhas, hMcont]
    rfl
  have hW : ((fs.makedirs (dirname rs)).writeFile rs "\x7b\x7d").lookupFile rs =
      some "\x7b\x7d" := FS.lookupFile_writeFile_self _ _ _
  have hWdirs : ∀ q ∈ pathPrefixes (dirname rs),
      q ∈ ((fs.makedirs (dirname rs)).writeFile rs "\x7b\x7d").dirs := by
    intro q hq
    rw [FS.dirs_writeFile]
    exact mem_dirs_makedirs fs _ q hq
  simp only [assertEqualsResultset, hpath, hfs1, hMpe, Bool.false_eq_true, if_false,
    assertCompare]
  cases hnorm : toJsonDumpable actual with
  | none =>
    exact ⟨hW, hWdirs, fun h => AssertOutcome.noConfusion h, fun w hw => Option.noConfusion hw⟩
  | some w =>
    have hlook : ∀ c line,
        ((((checkFileCanBeCreated ((fs.makedirs (dirname rs)).writeFile rs "\x7b\x7d")
            (tmpActualPath rootDir filename methodName callingFilename)).writeFile
            (tmpActualPath rootDir filename methodName callingFilename) c).appendFile
            (diffLogPath rootDir) line)).lookupFile rs = some "\x7b\x7d" := by
      intro c line
      rw [FS.lookupFile_appendFile_other _ _ _ _ (Ne.symm hlog),
        FS.lookupFile_writeFile_other _ _ _ _ (Ne.symm htmp),
        lookupFile_checkFileCanBeCreated]
      exact hW
    have hdirs : ∀ c line q, q ∈ pathPrefixes (dirname rs) →
        q ∈ ((((checkFileCanBeCreated ((fs.makedirs (dirname rs)).writeFile rs "\x7b\x7d")
            (tmpActualPath rootDir filename methodName callingFilename)).writeFile
            (tmpActualPath rootDir filename methodName callingFilename) c).appendFile
            (diffLogPath rootDir) line)).dirs := by
      intro c line q hq
      rw [FS.dirs_appendFile, FS.dirs_writeFile]
      exact dirs_subset_checkFileCanBeCreated _ _ q (hWdirs q hq)
    cases hcmd : diffCmdLine env rs (tmpActualPath rootDir filename methodName callingFilename)
    case none =>
      exact ⟨hlook _ _, fun q hq => hdirs _ _ q hq, fun h => AssertOutcome.noConfusion h,
        fun _ _ => rfl⟩
    case some line =>
      exact ⟨hlook _ _, fun q hq => hdirs _ _ q hq, fun h => AssertOutcome.noConfusion h,
        fun _ _ => rfl⟩

/-- Witness for C1: on an empty filesystem, the missing expected file is
created containing `\x7b\x7d` and that same invocation does not pass. -/
theorem assertEquals_missing_witness :
    ((assertEqualsResultset ⟨[]⟩ "/proj" "/proj/app/tests/unit/test_x.py" "test_m" none
        .pyNone ⟨[], []⟩).1).lookupFile
        "/proj/app/tests/fixtures/resultsets/unit/test_x/test_m.json" = some "\x7b\x7d" ∧
    (assertEqualsResultset ⟨[]⟩ "/proj" "/proj/app/tests/unit/test_x.py" "test_m" none
        .pyNone ⟨[], []⟩).2 ≠ .passed := by
  have H := assertEquals_missing ⟨[]⟩ "/proj" "/proj/app/tests/unit/test_x.py" "test_m"
    "/proj/app/tests/fixtures/resultsets/unit/test_x/test_m.json" none .pyNone ⟨[], []⟩
    rfl rfl (by decide) (by decide) (by decide)
  exact ⟨H.1, H.2.2.1⟩

/-- C5: on a mismatch against an existing expected file, the call writes
the serialized actual text to the diagnostic temp path
`<root>/.donotcommit_tmp/<caller-basename>-<method>_ACTUAL.json`, appends
to the shared diff-commands log exactly the line of the first available of
the four tools probed in the order `charm`, `pycharm-community`, `meld`,
`code` — appending nothing when none is available, though the log file is
still opened — and re-raises the original equality-assertion failure. -/
theorem assertEquals_mismatch (env : Env)
    (rootDir filename methodName rs expectedText : String)
    (callingFilename : Option String) (actual norm : PyVal) (fs : FS)
    (hpath : buildResultsetPath rootDir filename methodName callingFilename = .ok rs)
    (hnorm : toJsonDumpable actual = some norm)
    (hread : fs.lookupFile rs = some expectedText)
    (hmis : expectedText ≠ jsonDumps norm ++ "\n")
    (htl : diffLogPath rootDir ≠ tmpActualPath rootDir filename methodName callingFilename) :
    ((assertEqualsResultset env rootDir filename methodName callingFilename actual
        fs).1).lookupFile (tmpActualPath rootDir filename methodName callingFilename) =
      some (jsonDumps norm ++ "\n") ∧
    ((assertEqualsResultset env rootDir filename methodName callingFilename actual
        fs).1).lookupFile (diffLogPath rootDir) =
      some ((fs.lookupFile (diffLogPath rootDir)).getD "" ++
        (diffCmdLine env rs
          (tmpActualPath rootDir filename methodName callingFilename)).getD "") ∧
    (assertEqualsResultset env rootDir filename methodName callingFilename actual fs).2 =
      .assertionFailed := by
  have hhas : fs.hasFile rs = true := FS.hasFile_of_lookupFile fs rs _ hread
  have hpe : fs.pathExists rs = true := by
    unfold FS.pathExists
    rw [hhas]
    rfl
  have hfs1 : checkFileCanBeCreated fs rs = fs := by
    unfold checkFileCanBeCreated
    simp [hpe]
  simp only [assertEqualsResultset, hpath, hfs1, hpe, if_true, hread, assertCompare, hnorm,
    Option.some.injEq, hmis, ite_false]
  cases hcmd : diffCmdLine env rs (tmpActualPath rootDir filename methodName callingFilename)
  case none =>
    refine ⟨?_, ?_, trivial⟩
    · rw [FS.lookupFile_appendFile_other _ _ _ _ (Ne.symm htl)]
      exact FS.lookupFile_writeFile_self _ _ _
    · rw [FS.lookupFile_appendFile_self,
        FS.lookupFile_writeFile_other _ _ _ _ htl, lookupFile_checkFileCanBeCreated]
      rfl
  case some line =>
    refine ⟨?_, ?_, trivial⟩
    · rw [FS.lookupFile_appendFile_other _ _ _ _ (Ne.symm htl)]
      exact FS.lookupFile_writeFile_self _ _ _
    · rw [FS.lookupFile_appendFile_self,
        FS.lookupFile_writeFile_other _ _ _ _ htl, lookupFile_checkFileCanBeCreated]
      rfl

/-- Witness for C5: a host with only `meld` on `PATH`, an expected file
containing `\x7b\x7d` and an actual value `{"a": 1}` — the actual dump is
written, the `meld` line (third in priority) is appended to the empty log,
and the assertion fails. -/
theorem assertEquals_mismatch_witness :
    ((assertEqualsResultset ⟨["meld"]⟩ "/proj" "/proj/app/tests/unit/test_x.py" "test_m" none
        (.pyDict [("a", .pyInt 1)])
        ⟨[("/proj/app/tests/fixtures/resultsets/unit/test_x/test_m.json", "\x7b\x7d")],
          []⟩).1).lookupFile
        (tmpActualPath "/proj" "/proj/app/tests/unit/test_x.py" "test_m" none) =
      some (jsonDumps (.pyDict [("a", .pyInt 1)]) ++ "\n") ∧
    ((assertEqualsResultset ⟨["meld"]⟩ "/proj" "/proj/app/tests/unit/test_x.py" "test_m" none
        (.pyDict [("a", .pyInt 1)])
        ⟨[("/proj/app/tests/fixtures/resultsets/unit/test_x/test_m.json", "\x7b\x7d")],
          []⟩).1).lookupFile (diffLogPath "/proj") =
      some ((FS.lookupFile
          ⟨[("/proj/app/tests/fixtures/resultsets/unit/test_x/test_m.json", "\x7b\x7d")], []⟩
          (diffLogPath "/proj")).getD "" ++
        (diffCmdLine ⟨["meld"]⟩ "/proj/app/tests/fixtures/resultsets/unit/test_x/test_m.json"
          (tmpActualPath "/proj" "/proj/app/tests/unit/test_x.py" "test_m" none)).getD "") ∧
    (assertEqualsResultset ⟨["meld"]⟩ "/proj" "/proj/app/tests/unit/test_x.py" "test_m" none
        (.pyDict [("a", .pyInt 1)])
        ⟨[("/proj/app/tests/fixtures/resultsets/unit/test_x/test_m.json", "\x7b\x7d")],
          []⟩).2 = .assertionFailed :=
  assertEquals_mismatch ⟨["meld"]⟩ "/proj" "/proj/app/tests/unit/test_x.py" "test_m"
    "/proj/app/tests/fixtures/resultsets/unit/test_x/test_m.json" "\x7b\x7d" none
    (.pyDict [("a", .pyInt 1)]) (.pyDict [("a", .pyInt 1)])
    ⟨[("/proj/app/tests/fixtures/resultsets/unit/test_x/test_m.json", "\x7b\x7d")], []⟩
    rfl rfl rfl (by decide) (by decide)

/-! ## Serialization format lemmas (towards C8) -/

/-- Appending a non-empty string fixes the last character. -/
theorem getLast_str_append (a b : String) (h : b.data ≠ []) :
    ((a ++ b).data).getLast? = (b.data).getLast? := by
  show ((a.data ++ b.data)).getLast? = _
  exact List.getLast?_append_of_ne_nil _ h

/-- `natDigitsAux` never returns an empty list. -/
theorem natDigitsAux_ne_nil : ∀ fuel n, natDigitsAux fuel n ≠ []
  | 0, n => by simp [natDigitsAux]
  | fuel + 1, n => by
      unfold natDigitsAux
      split
      · simp
      · simp

/-- Every character `natDigitsAux` emits is a decimal digit. -/
theorem natDigitsAux_all_digits :
    ∀ fuel n c, c ∈ natDigitsAux fuel n → ∃ k, k < 10 ∧ c = Char.ofNat (48 + k)
  | 0, n, c => by
      intro hc
      simp only [natDigitsAux, List.mem_singleton] at hc
      exact ⟨n % 10, Nat.mod_lt _ (by omega), hc⟩
  | fuel + 1, n, c => by
      intro hc
      unfold natDigitsAux at hc
      by_cases hn : n < 10
      · rw [if_pos hn] at hc
        simp only [List.mem_singleton] at hc
        exact ⟨n, hn, hc⟩
      · rw [if_neg hn] at hc
        rcases List.mem_append.mp hc with hl | hr
        · exact natDigitsAux_all_digits fuel (n / 10) c hl
        · simp only [List.mem_singleton] at hr
          exact ⟨n % 10, Nat.mod_lt _ (by omega), hr⟩

/-- Every character `fracDigitsAux` emits is a decimal digit. -/
theorem fracDigitsAux_all_digits :
    ∀ fuel num den c, c ∈ fracDigitsAux fuel num den → ∃ k, k < 10 ∧ c = Char.ofNat (48 + k)
  | 0, _, _, c => by intro hc; simp [fracDigitsAux] at hc
  | fuel + 1, 0, _, c => by intro hc; simp [fracDigitsAux] at hc
  | fuel + 1, num + 1, den, c => by
      intro hc
      rcases List.mem_cons.mp hc with hh | ht
      · exact ⟨(num + 1) * 10 / den % 10, Nat.mod_lt _ (by omega), hh⟩
      · exact fracDigitsAux_all_digits fuel ((num + 1) * 10 % den) den c ht

/-- A list of decimal digits does not end with a newline. -/
theorem digits_getLast_ne_newline (l : List Char)
    (hl : ∀ c ∈ l, ∃ k, k < 10 ∧ c = Char.ofNat (48 + k)) :
    l.getLast? ≠ some (Char.ofNat 10) := by
  intro h
  obtain ⟨k, hk, he⟩ := hl _ (List.mem_of_mem_getLast? h)
  interval_cases k <;> exact absurd he (by decide)

/-- A quoted JSON string literal ends with the closing quote. -/
theorem quoteStr_getLast (s : String) :
    ((quoteStr s).data).getLast? ≠ some (Char.ofNat 10) := by
  unfold quoteStr
  rw [getLast_str_append _ _ (by decide)]
  decide

/-- A wrapped container ends with its closing bracket. -/
theorem wrapItems_getLast (o c : String) (hc : c.data ≠ [])
    (hcl : (c.data).getLast? ≠ some (Char.ofNat 10)) (d : Nat) (items : List String) :
    ((wrapItems o c d items).data).getLast? ≠ some (Char.ofNat 10) := by
  cases items with
  | nil =>
    show ((o ++ c).data).getLast? ≠ _
    rw [getLast_str_append _ _ hc]
    exact hcl
  | cons x t =>
    show ((o ++ "\n" ++ String.intercalate (",\n") (x :: t) ++ "\n" ++ indentStr d ++
      c).data).getLast? ≠ _
    rw [getLast_str_append _ _ hc]
    exact hcl

/-- The serializer's output never ends with a newline: every constructor
ends with a fixed non-newline character (closing bracket, closing quote,
digit, letter). -/
theorem jsonDumpsAt_getLast_ne_newline (d : Nat) (v : PyVal) :
    ((jsonDumpsAt d v).data).getLast? ≠ some (Char.ofNat 10) := by
  cases v with
  | pyNone =>
    show (("null" : String).data).getLast? ≠ some (Char.ofNat 10)
    decide
  | pyBool b =>
    cases b
    · show (("false" : String).data).getLast? ≠ some (Char.ofNat 10)
      decide
    · show (("true" : String).data).getLast? ≠ some (Char.ofNat 10)
      decide
  | pyInt n =>
    show ((intStr n).data).getLast? ≠ _
    unfold intStr
    by_cases hn : n < 0
    · rw [if_pos hn,
        getLast_str_append _ _ (show (natStr n.natAbs).data ≠ [] from natDigitsAux_ne_nil _ _)]
      exact digits_getLast_ne_newline _ (fun c hc => natDigitsAux_all_digits _ _ c hc)
    · rw [if_neg hn]
      exact digits_getLast_ne_newline _ (fun c hc => natDigitsAux_all_digits _ _ c hc)
  | pyFloat q =>
    show ((floatRepr q).data).getLast? ≠ _
    unfold floatRepr
    by_cases hz : q.num.natAbs % q.den = 0
    · rw [if_pos hz, getLast_str_append _ _ (show (".0" : String).data ≠ [] by decide)]
      decide
    · rw [if_neg hz]
      cases hl : fracDigitsAux 1200 (q.num.natAbs % q.den) q.den with
      | nil =>
        have heq : (((if q < 0 then "-" else "") ++ natStr (q.num.natAbs / q.den) ++ "." ++
            String.mk []).data) = (((if q < 0 then "-" else "") ++
            natStr (q.num.natAbs / q.den) ++ ".").data) ++ ([] : List Char) := rfl
        rw [heq, List.append_nil,
          getLast_str_append _ _ (show ("." : String).data ≠ [] by decide)]
        decide
      | cons ch t =>
        rw [getLast_str_append ((if q < 0 then "-" else "") ++ natStr (q.num.natAbs / q.den)
          ++ ".") (String.mk (ch :: t)) (by simp)]
        refine digits_getLast_ne_newline (ch :: t) ?_
        intro x hx
        exact fracDigitsAux_all_digits 1200 _ _ x (hl ▸ hx)
  | pyStr s => exact quoteStr_getLast s
  | pyDecimal q => exact quoteStr_getLast _
  | pyDatetime dt => exact quoteStr_getLast _
  | pyDate dd => exact quoteStr_getLast _
  | pyBytes bs => exact quoteStr_getLast _
  | pyList xs => exact wrapItems_getLast "[" "]" (by decide) (by decide) d _
  | pyTuple xs => exact wrapItems_getLast "[" "]" (by decide) (by decide) d _
  | pyDict es => exact wrapItems_getLast "\x7b" "\x7d" (by decide) (by decide) d _

/-- The object items are the entry list mapped in order. -/
theorem jsonDictItems_eq_map (d : Nat) :
    ∀ es, jsonDictItems d es =
      es.map (fun e => indentStr d ++ quoteStr e.1 ++ ": " ++ jsonDumpsAt d e.2)
  | [] => rfl
  | (k, v) :: t => by
      simp only [jsonDictItems, List.map_cons, jsonDictItems_eq_map d t]

/-- The array items are the element list mapped in order. -/
theorem jsonListItems_eq_map (d : Nat) :
    ∀ xs, jsonListItems d xs = xs.map (fun v => indentStr d ++ jsonDumpsAt d v)
  | [] => rfl
  | x :: t => by
      simp only [jsonListItems, List.map_cons, jsonListItems_eq_map d t]

/-- C8: the serialized actual text is the JSON dump of the normalized value
followed by exactly one trailing newline (the dump itself never ends in a
newline); a non-empty object renders its keys in insertion order, one item
per line at four more spaces of indent, with `": "` between key and value
and `","` before each item-separating newline; non-empty arrays render
likewise; the indentation prefix at depth `d` is `4*d` spaces; and under
`ensure_ascii=False` every character at or above `0x20` other than the
double quote and the backslash — all non-ASCII characters included — is
emitted literally, never as a `\uXXXX` escape. -/
theorem jsonSerialization_format :
    (∀ v w, toJsonDumpable v = some w → actualJsonText v = some (jsonDumps w ++ "\n")) ∧
    (∀ d v, ((jsonDumpsAt d v).data).getLast? ≠ some (Char.ofNat 10)) ∧
    (∀ d es, es ≠ ([] : List (String × PyVal)) → jsonDumpsAt d (.pyDict es) =
      "\x7b" ++ "\n" ++ String.intercalate (",\n")
        (es.map (fun e => indentStr (d + 1) ++ quoteStr e.1 ++ ": " ++ jsonDumpsAt (d + 1) e.2))
        ++ "\n" ++ indentStr d ++ "\x7d") ∧
    (∀ d xs, xs ≠ ([] : List PyVal) → jsonDumpsAt d (.pyList xs) =
      "[" ++ "\n" ++ String.intercalate (",\n")
        (xs.map (fun x => indentStr (d + 1) ++ jsonDumpsAt (d + 1) x))
        ++ "\n" ++ indentStr d ++ "]") ∧
    (∀ d, (indentStr d).length = 4 * d ∧ ∀ ch ∈ (indentStr d).data, ch = ' ') ∧
    (∀ c : Char, 0x20 ≤ c.toNat → c ≠ Char.ofNat 34 → c ≠ '\\' →
      escChar c = String.singleton c) := by
  refine ⟨fun v w h => ?_, jsonDumpsAt_getLast_ne_newline, fun d es hne => ?_,
    fun d xs hne => ?_, fun d => ⟨?_, fun ch hch => ?_⟩, fun c h1 h2 h3 => ?_⟩
  · unfold actualJsonText
    rw [h]
    rfl
  · cases es with
    | nil => exact absurd rfl hne
    | cons e t =>
      simp only [jsonDumpsAt, jsonDictItems_eq_map]
      rfl
  · cases xs with
    | nil => exact absurd rfl hne
    | cons x t =>
      simp only [jsonDumpsAt, jsonListItems_eq_map]
      rfl
  · show (List.replicate (4 * d) ' ').length = 4 * d
    exact List.length_replicate _ _
  · exact List.eq_of_mem_replicate hch
  · unfold escChar
    rw [if_neg h2, if_neg h3,
      if_neg (fun he => absurd (he ▸ h1) (by decide)),
      if_neg (fun he => absurd (he ▸ h1) (by decide)),
      if_neg (fun he => absurd (he ▸ h1) (by decide)),
      if_neg (show ¬ c.toNat = 8 by omega),
      if_neg (show ¬ c.toNat = 12 by omega),
      if_neg (show ¬ c.toNat < 0x20 by omega)]

/-- Witness for C8: the object-format clause at a concrete one-entry dict. -/
theorem jsonSerialization_format_witness :
    jsonDumpsAt 0 (.pyDict [("k", .pyInt 1)]) =
      "\x7b" ++ "\n" ++ String.intercalate (",\n")
        ([("k", PyVal.pyInt 1)].map
          (fun e => indentStr 1 ++ quoteStr e.1 ++ ": " ++ jsonDumpsAt 1 e.2)) ++
      "\n" ++ indentStr 0 ++ "\x7d" :=
  jsonSerialization_format.2.2.1 0 [("k", .pyInt 1)] (List.cons_ne_nil _ _)

/-! ## Heap lemmas and C10 -/

/-- Threading a heap-growing step over list elements grows the heap. -/
theorem threadNorm_length_mono (step : Heap → HVal → Option (Heap × HVal))
    (hstep : ∀ h v h' v', step h v = some (h', v') → h.length ≤ h'.length) :
    ∀ xs h h' xs', threadNorm step h xs = some (h', xs') → h.length ≤ h'.length
  | [], h, h', xs', hrun => by
      have h2 : (h, ([] : List HVal)) = (h', xs') := Option.some.inj hrun
      rw [Prod.mk.injEq] at h2
      rw [← h2.1]
  | x :: t, h, h', xs', hrun => by
      simp only [threadNorm] at hrun
      cases hx : step h x with
      | none => simp [hx] at hrun
      | some p =>
        obtain ⟨h1, x'⟩ := p
        simp only [hx] at hrun
        cases ht : threadNorm step h1 t with
        | none => simp [ht] at hrun
        | some p2 =>
          obtain ⟨h2, t'⟩ := p2
          simp only [ht] at hrun
          have h3 : (h2, x' :: t') = (h', xs') := Option.some.inj hrun
          rw [Prod.mk.injEq] at h3
          calc h.length ≤ h1.length := hstep h x h1 x' hx
            _ ≤ h2.length := threadNorm_length_mono step hstep t h1 h2 t' ht
            _ = h'.length := by rw [h3.1]

/-- Threading a heap-growing step over dict entries grows the heap. -/
theorem threadNormEntries_length_mono (step : Heap → HVal → Option (Heap × HVal))
    (hstep : ∀ h v h' v', step h v = some (h', v') → h.length ≤ h'.length) :
    ∀ es h h' es', threadNormEntries step h es = some (h', es') → h.length ≤ h'.length
  | [], h, h', es', hrun => by
      have h2 : (h, ([] : List (String × HVal))) = (h', es') := Option.some.inj hrun
      rw [Prod.mk.injEq] at h2
      rw [← h2.1]
  | (k, v) :: t, h, h', es', hrun => by
      simp only [threadNormEntries] at hrun
      cases hx : step h v with
      | none => simp [hx] at hrun
      | some p =>
        obtain ⟨h1, v'⟩ := p
        simp only [hx] at hrun
        cases ht : threadNormEntries step h1 t with
        | none => simp [ht] at hrun
        | some p2 =>
          obtain ⟨h2, t'⟩ := p2
          simp only [ht] at hrun
          have h3 : (h2, (k, v') :: t') = (h', es') := Option.some.inj hrun
          rw [Prod.mk.injEq] at h3
          calc h.length ≤ h1.length := hstep h v h1 v' hx
            _ ≤ h2.length := threadNormEntries_length_mono step hstep t h1 h2 t' ht
            _ = h'.length := by rw [h3.1]

/-- Heap normalization only grows the heap (mutation happens by `set`,
allocation by appending). -/
theorem normHVal_length_mono :
    ∀ fuel h v h' v', normHVal fuel h v = some (h', v') → h.length ≤ h'.length
  | fuel, h, .imm w, h', v', hrun => by
      simp only [normHVal] at hrun
      rw [Option.map_eq_some'] at hrun
      obtain ⟨w', _, heq⟩ := hrun
      have h2 : (h, HVal.imm w') = (h', v') := heq
      rw [Prod.mk.injEq] at h2
      rw [← h2.1]
  | 0, h, .ref r, h', v', hrun => by simp [normHVal] at hrun
  | fuel + 1, h, .ref r, h', v', hrun => by
      simp only [normHVal] at hrun
      cases hget : h.get? r with
      | none =>
        rw [hget] at hrun
        exact Option.noConfusion hrun
      | some obj =>
        simp only [hget] at hrun
        cases obj with
        | dictObj es =>
          cases hth : threadNormEntries (normHVal fuel) h es with
          | none => simp [hth] at hrun
          | some p =>
            obtain ⟨h1, es'⟩ := p
            simp only [hth] at hrun
            have h3 : (h1.set r (HObj.dictObj es'), HVal.ref r) = (h', v') :=
              Option.some.inj hrun
            rw [Prod.mk.injEq] at h3
            have hm : h.length ≤ h1.length :=
              threadNormEntries_length_mono (normHVal fuel)
                (fun a b c e hh => normHVal_length_mono fuel a b c e hh) es h h1 es' hth
            calc h.length ≤ h1.length := hm
              _ = (h1.set r (HObj.dictObj es')).length := (List.length_set _ _ _).symm
              _ = h'.length := by rw [h3.1]
        | listObj xs =>
          cases hth : threadNorm (normHVal fuel) h xs with
          | none => simp [hth] at hrun
          | some p =>
            obtain ⟨h1, xs'⟩ := p
            simp only [hth] at hrun
            have h3 : (h1.set r (HObj.listObj xs'), HVal.ref r) = (h', v') :=
              Option.some.inj hrun
            rw [Prod.mk.injEq] at h3
            have hm : h.length ≤ h1.length :=
              threadNorm_length_mono (normHVal fuel)
                (fun a b c e hh => normHVal_length_mono fuel a b c e hh) xs h h1 xs' hth
            calc h.length ≤ h1.length := hm
              _ = (h1.set r (HObj.listObj xs')).length := (List.length_set _ _ _).symm
              _ = h'.length := by rw [h3.1]
        | tupleObj xs =>
          have hrec := normHVal_length_mono fuel (h ++ [HObj.listObj xs]) (.ref h.length)
            h' v' hrun
          calc h.length ≤ (h ++ [HObj.listObj xs]).length := by simp
            _ ≤ h'.length := hrec

/-- C10: in the heap view, `_to_json_dumpable` is destructive and in place
on the mutable containers — a dict or list object is returned as the very
same reference it was given, with the object at that address overwritten
by its value-wise (resp. element-wise) normalized entries, so the caller's
object graph is mutated; only a tuple is first copied (`list(data)`) into
a freshly allocated list, whose fresh reference — not the tuple's own — is
returned. -/
theorem normHVal_in_place (fuel : Nat) (h : Heap) (r : Nat) :
    (∀ es h' v', h.get? r = some (.dictObj es) →
      normHVal (fuel + 1) h (.ref r) = some (h', v') →
      v' = .ref r ∧ ∃ h1 es', threadNormEntries (normHVal fuel) h es = some (h1, es') ∧
        h' = h1.set r (.dictObj es') ∧ h'.get? r = some (.dictObj es')) ∧
    (∀ xs h' v', h.get? r = some (.listObj xs) →
      normHVal (fuel + 1) h (.ref r) = some (h', v') →
      v' = .ref r ∧ ∃ h1 xs', threadNorm (normHVal fuel) h xs = some (h1, xs') ∧
        h' = h1.set r (.listObj xs') ∧ h'.get? r = some (.listObj xs')) ∧
    (∀ xs h' v', h.get? r = some (.tupleObj xs) →
      normHVal (fuel + 2) h (.ref r) = some (h', v') →
      v' = .ref h.length ∧ r < h.length) := by
  have hlt : ∀ (obj : HObj), h.get? r = some obj → r < h.length := by
    intro obj hget
    by_contra hc
    rw [List.get?_eq_none.mpr (by omega)] at hget
    exact Option.noConfusion hget
  refine ⟨fun es h' v' hget hrun => ?_, fun xs h' v' hget hrun => ?_,
    fun xs h' v' hget hrun => ?_⟩
  · simp only [normHVal, hget] at hrun
    cases hth : threadNormEntries (normHVal fuel) h es with
    | none => simp [hth] at hrun
    | some p =>
      obtain ⟨h1, es'⟩ := p
      simp only [hth] at hrun
      have h3 : (h1.set r (HObj.dictObj es'), HVal.ref r) = (h', v') := Option.some.inj hrun
      rw [Prod.mk.injEq] at h3
      have hr1 : r < h1.length :=
        lt_of_lt_of_le (hlt _ hget)
          (threadNormEntries_length_mono (normHVal fuel)
            (fun a b c e hh => normHVal_length_mono fuel a b c e hh) es h h1 es' hth)
      refine ⟨h3.2.symm, h1, es', rfl, h3.1.symm, ?_⟩
      rw [← h3.1]
      exact List.get?_set_eq_of_lt _ hr1
  · simp only [normHVal, hget] at hrun
    cases hth : threadNorm (normHVal fuel) h xs with
    | none => simp [hth] at hrun
    | some p =>
      obtain ⟨h1, xs'⟩ := p
      simp only [hth] at hrun
      have h3 : (h1.set r (HObj.listObj xs'), HVal.ref r) = (h', v') := Option.some.inj hrun
      rw [Prod.mk.injEq] at h3
      have hr1 : r < h1.length :=
        lt_of_lt_of_le (hlt _ hget)
          (threadNorm_length_mono (normHVal fuel)
            (fun a b c e hh => normHVal_length_mono fuel a b c e hh) xs h h1 xs' hth)
      refine ⟨h3.2.symm, h1, xs', rfl, h3.1.symm, ?_⟩
      rw [← h3.1]
      exact List.get?_set_eq_of_lt _ hr1
  · simp only [normHVal, hget, List.get?_concat_length] at hrun
    cases hth : threadNorm (normHVal fuel) (h ++ [HObj.listObj xs]) xs with
    | none => simp [hth] at hrun
    | some p =>
      obtain ⟨h1, xs'⟩ := p
      simp only [hth] at hrun
      have h3 : (h1.set h.length (HObj.listObj xs'), HVal.ref h.length) = (h', v') :=
        Option.some.inj hrun
      rw [Prod.mk.injEq] at h3
      exact ⟨h3.2.symm, hlt _ hget⟩

/-- Witness for C10: a one-object heap holding a dict whose value is a
decimal — normalization returns the same reference `0` and the heap slot is
overwritten with the normalized entries. -/
theorem normHVal_in_place_witness :
    HVal.ref 0 = HVal.ref 0 ∧
    ∃ h1 es', threadNormEntries (normHVal 1) [HObj.dictObj [("a", HVal.imm (.pyDecimal 2))]]
        [("a", HVal.imm (.pyDecimal 2))] = some (h1, es') ∧
      ([HObj.dictObj [("a", HVal.imm (.pyFloat 2))]] : Heap) = h1.set 0 (HObj.dictObj es') ∧
      ([HObj.dictObj [("a", HVal.imm (.pyFloat 2))]] : Heap).get? 0 =
        some (HObj.dictObj es') :=
  (normHVal_in_place 1 [HObj.dictObj [("a", HVal.imm (.pyDecimal 2))]] 0).1
    [("a", HVal.imm (.pyDecimal 2))] [HObj.dictObj [("a", HVal.imm (.pyFloat 2))]]
    (HVal.ref 0) rfl rfl

end ADT

example : ADT.jsonDumps (.pyDict [("a", .pyInt 1)]) = "\x7b\n    \"a\": 1\n\x7d" := by rfl
example :
    ADT.jsonDumps (.pyDict [("a", .pyList [.pyInt 1, .pyStr "é"]), ("b", .pyDict [])]) =
      "\x7b\n    \"a\": [\n        1,\n        \"é\"\n    ],\n    \"b\": \x7b\x7d\n\x7d" := by
  rfl
example : ADT.getTestSubdir "/proj" "/proj/app/tests/unit/test_foo.py" = "unit" := by rfl
example :
    ADT.getTestFixturesDir "/proj/app/tests/unit/test_foo.py" =
      .ok "/proj/app/tests/fixtures" := by rfl
example : ADT.floatRepr (⟨5, 2, by decide, by decide⟩ : Rat) = "2.5" := by rfl
example : ADT.floatRepr (3 : Rat) = "3.0" := by rfl
example : ADT.pyFind "/app/tests/unit/x.py" "/tests" = 4 := by decide
example : ADT.pyFind "/x.py" "/tests" = -1 := by decide
example : ADT.pyReplace "test_foo.py" ".py" "" = "test_foo" := by rfl
example : ADT.basename "/app/tests/unit/test_foo.py" = "test_foo.py" := by rfl
example : ADT.dirname "/app/tests/unit/test_foo.py" = "/app/tests/unit" := by rfl
example : ADT.dirname "/c" = "/" := by rfl
example : ADT.utf8Decode? [104, 105] = some "hi" := by rfl
example : ADT.utf8Decode? [0xC3, 0xA9] = some "é" := by rfl
example : ADT.utf8Decode? [0xFF] = none := by rfl
example : ADT.utf8Decode? [0xF4, 0x90, 0x80, 0x80] = none := by rfl
example : ADT.utf8Decode? [0xF0, 0x9F, 0x98, 0x80] = some "😀" := by rfl
example : ADT.utf8Decode? [0xED, 0xA0, 0x80] = none := by rfl
example : ADT.toJsonDumpable (.pyTuple [.pyDecimal 2]) = some (.pyList [.pyFloat 2]) := by rfl
